import Mathlib

/-!
Verification of `check_domains.py`.

A shallow embedding of the domain-availability checker in
`src/check_domains.py`, together with proofs of its specified properties.

Modelling conventions:
* The external `whois.whois` call is an oracle `whoisQuery : String → Except ε ρ`:
  `Except.ok r` models a call that returns record `r`, `Except.error e` models a
  call that raises exception `e`.
* The optional `status_callback` of `find_available_domains` is an oracle
  `Option (String → Except κ Unit)`: `Except.error` models the callback raising.
* File reads are modelled as `Option` values: `none` models `FileNotFoundError`.
* The YAML parser `yaml.safe_load` is an oracle returning either a parse fault
  or the parsed mapping (an association list from keys to string lists).
* Python string formatting `f"{base}.{tld}"` is string concatenation.
-/

/-- Python's whitespace set for `str.strip()`: space, tab, newline, carriage
return, vertical tab, form feed. -/
def isPySpace (c : Char) : Bool :=
  c = ' ' || c = '\t' || c = '\n' || c = '\r' || c = '\x0b' || c = '\x0c'

/-- Python `str.strip()` on the character list: drop leading and trailing
whitespace. -/
def stripChars (l : List Char) : List Char :=
  ((l.dropWhile isPySpace).reverse.dropWhile isPySpace).reverse

/-- Python `str.strip()`. -/
def pyStrip (s : String) : String :=
  String.mk (stripChars s.toList)

/-- Embedding of `load_config` (src/check_domains.py:14-29).
`readFile` is `none` when opening the file raises `FileNotFoundError`
(caught, returning `[]`), and `some content` otherwise.  `safe_load` models
`yaml.safe_load`; a parse fault propagates (only `FileNotFoundError` is
caught).  On success, `config.get('top_level_domains', [])` is key lookup in
the parsed mapping with default `[]`. -/
def load_config {ε : Type} (readFile : Option String)
    (safe_load : String → Except ε (List (String × List String))) :
    Except ε (List String) :=
  match readFile with
  | none => Except.ok []
  | some content =>
    match safe_load content with
    | Except.error e => Except.error e
    | Except.ok config => Except.ok ((config.lookup "top_level_domains").getD [])

/-- Embedding of `load_strings` (src/check_domains.py:32-46).
`readFile` is `none` when opening the file raises `FileNotFoundError`
(caught, returning `[]`); otherwise `some lines`, the lines of the file.
The comprehension `[line.strip() for line in file if line.strip()]` keeps
`line.strip()` for every line whose stripped form is non-empty (Python
truthiness of a string is non-emptiness). -/
def load_strings (readFile : Option (List String)) : List String :=
  match readFile with
  | none => []
  | some lines =>
    lines.filterMap fun line =>
      if pyStrip line = "" then none else some (pyStrip line)

/-- Embedding of `check_domain` (src/check_domains.py:49-63).
`whois.whois(domain)` is the oracle `whoisQuery`; a completed call yields
`true` (registered), any raised exception is caught and yields `false`. -/
def check_domain {ε ρ : Type} (whoisQuery : String → Except ε ρ)
    (domain : String) : Bool :=
  match whoisQuery domain with
  | Except.ok _ => true
  | Except.error _ => false

/-- Embedding of `generate_domain_combinations` (src/check_domains.py:66-77):
`[(f"{base}.{tld}", base) for base in base_strings for tld in tlds]`. -/
def generate_domain_combinations (base_strings tlds : List String) :
    List (String × String) :=
  base_strings.flatMap fun base => tlds.map fun tld => (base ++ "." ++ tld, base)

/-- Embedding of the result computation of `find_available_domains`
(src/check_domains.py:80-101) as the loop's fold: append `domain` to the
accumulator whenever `check_domain` returns `false`. -/
def find_available_domains {ε ρ : Type} (whoisQuery : String → Except ε ρ)
    (domain_combinations : List (String × String)) : List String :=
  domain_combinations.foldl
    (fun available_domains c =>
      if check_domain whoisQuery c.1 then available_domains
      else available_domains ++ [c.1]) []

/-- Observable events of one `find_available_domains` loop iteration:
invoking the status callback with a domain, and probing a domain via
`check_domain`. -/
inductive AggEvent
  | notify (domain : String)
  | probe (domain : String)
deriving DecidableEq, Repr

/-- Embedding of `find_available_domains` (src/check_domains.py:80-101) with
its effects: returns the trace of callback invocations and probes, and either
the collected available-domain list or the callback fault that aborted the
loop.  A callback fault stops iteration immediately (the Python exception
propagates); `check_domain` itself never raises. -/
def find_available_domains_run {κ ε ρ : Type}
    (status_callback : Option (String → Except κ Unit))
    (whoisQuery : String → Except ε ρ) :
    List (String × String) → List AggEvent × Except κ (List String)
  | [] => ([], Except.ok [])
  | (domain, _base) :: rest =>
    match status_callback with
    | some cb =>
      match cb domain with
      | Except.error e => ([AggEvent.notify domain], Except.error e)
      | Except.ok _ =>
        let r := find_available_domains_run status_callback whoisQuery rest
        (AggEvent.notify domain :: AggEvent.probe domain :: r.1,
          match r.2 with
          | Except.error e => Except.error e
          | Except.ok ds =>
            Except.ok (if check_domain whoisQuery domain then ds else domain :: ds))
    | none =>
      let r := find_available_domains_run none whoisQuery rest
      (AggEvent.probe domain :: r.1,
        match r.2 with
        | Except.error e => Except.error e
        | Except.ok ds =>
          Except.ok (if check_domain whoisQuery domain then ds else domain :: ds))

/-- Embedding of `print_status` (src/check_domains.py:104-111): the line it
writes to standard output for argument `base` is `f"Checking: {base}"`. -/
def print_status (base : String) : String :=
  "Checking: " ++ base

/-- The domains passed to the status callback, in invocation order, read off
an event trace. -/
def notifyArgs : List AggEvent → List String
  | [] => []
  | AggEvent.notify d :: es => d :: notifyArgs es
  | AggEvent.probe _ :: es => notifyArgs es

/-- The progress lines `main` (src/check_domains.py:142-157) writes to
standard output: `main` passes `print_status` as the status callback of
`find_available_domains`, so one line is printed per callback invocation,
with the argument the callback received.  `print_status` never raises. -/
def main_progress_lines {ε ρ : Type} (whoisQuery : String → Except ε ρ)
    (base_strings tlds : List String) : List String :=
  (notifyArgs
    (find_available_domains_run (some fun _ => (Except.ok () : Except Unit Unit))
      whoisQuery (generate_domain_combinations base_strings tlds)).1).map
    print_status

/-! ## Generator lemmas -/

theorem generate_domain_combinations_length (B T : List String) :
    (generate_domain_combinations B T).length = B.length * T.length := by
  induction B with
  | nil => simp [generate_domain_combinations]
  | cons b B ih =>
    simp only [generate_domain_combinations, List.flatMap_cons, List.length_append,
      List.length_map] at *
    rw [ih, List.length_cons, Nat.succ_mul]
    omega

theorem generate_domain_combinations_getElem (B T : List String) :
    ∀ i : Nat, i < B.length * T.length →
      (generate_domain_combinations B T)[i]? =
        some (B.getD (i / T.length) "" ++ "." ++ T.getD (i % T.length) "",
              B.getD (i / T.length) "") := by
  induction B with
  | nil => intro i hi; simp at hi
  | cons b B ih =>
    intro i hi
    have ht : 0 < T.length := by
      rcases Nat.eq_zero_or_pos T.length with h0 | h0
      · rw [h0, Nat.mul_zero] at hi; exact absurd hi (Nat.not_lt_zero i)
      · exact h0
    simp only [generate_domain_combinations, List.flatMap_cons]
    by_cases hlt : i < T.length
    · rw [List.getElem?_append_left (by simpa using hlt)]
      rw [Nat.div_eq_of_lt hlt, Nat.mod_eq_of_lt hlt, List.getD_cons_zero]
      simp [List.getElem?_eq_getElem hlt, List.getD_eq_getElem?_getD]
    · push_neg at hlt
      rw [List.getElem?_append_right (by simpa using hlt)]
      have hij : i - T.length + T.length = i := Nat.sub_add_cancel hlt
      have hdiv : i / T.length = (i - T.length) / T.length + 1 := by
        conv_lhs => rw [← hij]
        rw [Nat.add_div_right _ ht]
      have hmod : i % T.length = (i - T.length) % T.length := by
        conv_lhs => rw [← hij]
        rw [Nat.add_mod_right]
      have hi' : i < B.length * T.length + T.length := by
        simpa [Nat.succ_mul] using hi
      have hj : i - T.length < B.length * T.length := by omega
      rw [hdiv, hmod, List.getD_cons_succ, List.length_map]
      exact ih (i - T.length) hj

/-- Claim C1: For every list of base strings `B` and every list of TLDs `T`,
`generate_domain_combinations B T` returns exactly `|B| * |T|` pairs in
base-major order, the `i`-th pair being
`(B[i / |T|] ++ "." ++ T[i % |T|], B[i / |T|])`; when `B` or `T` is empty the
result is empty, and duplicates are preserved (the exact index-wise
characterisation leaves no room for deduplication). -/
theorem generate_domain_combinations_spec (B T : List String) :
    (generate_domain_combinations B T).length = B.length * T.length ∧
    (∀ i : Nat, i < B.length * T.length →
      (generate_domain_combinations B T)[i]? =
        some (B.getD (i / T.length) "" ++ "." ++ T.getD (i % T.length) "",
              B.getD (i / T.length) "")) ∧
    (∀ T' : List String, generate_domain_combinations [] T' = []) ∧
    (∀ B' : List String, generate_domain_combinations B' [] = []) := by
  refine ⟨generate_domain_combinations_length B T,
    generate_domain_combinations_getElem B T, ?_, ?_⟩
  · intro T'; simp [generate_domain_combinations]
  · intro B'; simp [generate_domain_combinations]

/-- Witness for C1 at the spec's own example: two bases, two TLDs, four
candidates, and the candidate at index 2 is `("example.com", "example")`. -/
theorem generate_domain_combinations_spec_witness :
    (generate_domain_combinations ["test", "example"] ["com", "net"]).length = 4 ∧
    (generate_domain_combinations ["test", "example"] ["com", "net"])[2]? =
      some ("example.com", "example") := by
  have h := generate_domain_combinations_spec ["test", "example"] ["com", "net"]
  exact ⟨h.1.trans (by decide), (h.2.1 2 (by decide)).trans (by decide)⟩

/-! ## Prober and aggregator lemmas -/

theorem find_available_domains_eq_filter_map {ε ρ : Type}
    (w : String → Except ε ρ) (combos : List (String × String)) :
    find_available_domains w combos =
      (combos.filter fun c => !check_domain w c.1).map Prod.fst := by
  suffices h : ∀ (l : List (String × String)) (acc : List String),
      l.foldl (fun available_domains c =>
          if check_domain w c.1 then available_domains
          else available_domains ++ [c.1]) acc =
        acc ++ (l.filter fun c => !check_domain w c.1).map Prod.fst by
    simpa [find_available_domains] using h combos []
  intro l
  induction l with
  | nil => intro acc; simp
  | cons c cs ih =>
    intro acc
    cases hc : check_domain w c.1 <;> simp [List.foldl_cons, hc, ih, List.filter_cons]

/-- Claim C2: For every candidate list and every behaviour of the probe,
`find_available_domains` returns exactly the domains of the candidates on
which `check_domain` returned `false`, in input order; hence the result is an
order-preserving subsequence of the input domains, containing only domains
whose probe raised a fault. -/
theorem find_available_domains_spec {ε ρ : Type} (w : String → Except ε ρ)
    (combos : List (String × String)) :
    find_available_domains w combos =
      (combos.filter fun c => !check_domain w c.1).map Prod.fst ∧
    (find_available_domains w combos).Sublist (combos.map Prod.fst) ∧
    (∀ d, d ∈ find_available_domains w combos → ∃ e, w d = Except.error e) := by
  have h := find_available_domains_eq_filter_map w combos
  refine ⟨h, ?_, ?_⟩
  · rw [h]
    exact (List.filter_sublist combos).map Prod.fst
  · intro d hd
    rw [h] at hd
    rcases List.mem_map.mp hd with ⟨c, hc, rfl⟩
    have hfc := (List.mem_filter.mp hc).2
    cases hw : w c.1 with
    | ok r => simp [check_domain, hw] at hfc
    | error e => exact ⟨e, rfl⟩

/-- Witness for C2 on the spec's three-candidate example: only the probe of
`"test.net"` faults, and the result is exactly `["test.net"]`. -/
theorem find_available_domains_spec_witness :
    find_available_domains
        (fun d => if d = "test.net" then (Except.error "fault" : Except String Unit)
                  else Except.ok ())
        [("test.com", "test"), ("test.net", "test"), ("example.com", "example")] =
      ["test.net"] ∧
    (∃ e, (fun d => if d = "test.net" then (Except.error "fault" : Except String Unit)
                    else Except.ok ()) "test.net" = Except.error e) := by
  have h := find_available_domains_spec
    (fun d => if d = "test.net" then (Except.error "fault" : Except String Unit)
              else Except.ok ())
    [("test.com", "test"), ("test.net", "test"), ("example.com", "example")]
  exact ⟨h.1.trans (by decide), h.2.2 "test.net" (by decide)⟩

/-- Claim C3: `check_domain` returns `true` exactly when the `whois.whois` call
completes without raising, and `false` exactly when it raises (any exception
whatsoever); the fault is swallowed — `check_domain` total-returns a `Bool`
and never re-raises, and every fault yields the same verdict `false`. -/
theorem check_domain_spec {ε ρ : Type} (w : String → Except ε ρ) (d : String) :
    (check_domain w d = true ↔ ∃ r, w d = Except.ok r) ∧
    (check_domain w d = false ↔ ∃ e, w d = Except.error e) := by
  cases hw : w d with
  | ok r =>
    constructor
    · simp [check_domain, hw]
    · simp [check_domain, hw]
  | error e =>
    constructor
    · simp [check_domain, hw]
    · simp [check_domain, hw]

/-- Witness for C3: a probe that raises is classified `false` (available). -/
theorem check_domain_spec_witness :
    check_domain (fun _ => (Except.error "no record" : Except String Unit))
      "example.com" = false ∧
    (∃ e, (fun _ => (Except.error "no record" : Except String Unit)) "example.com" =
      Except.error e) := by
  have h := check_domain_spec
    (fun _ => (Except.error "no record" : Except String Unit)) "example.com"
  exact ⟨by decide, h.2.mp (by decide)⟩

theorem find_available_domains_cons {ε ρ : Type} (w : String → Except ε ρ)
    (c : String × String) (cs : List (String × String)) :
    find_available_domains w (c :: cs) =
      if check_domain w c.1 then find_available_domains w cs
      else c.1 :: find_available_domains w cs := by
  rw [find_available_domains_eq_filter_map, find_available_domains_eq_filter_map,
    List.filter_cons]
  cases hc : check_domain w c.1 <;> simp [hc]

theorem find_available_domains_run_ok {κ ε ρ : Type}
    (cb : String → Except κ Unit) (w : String → Except ε ρ)
    (combos : List (String × String)) (h : ∀ d, cb d = Except.ok ()) :
    find_available_domains_run (some cb) w combos =
      (combos.flatMap fun c => [AggEvent.notify c.1, AggEvent.probe c.1],
       Except.ok (find_available_domains w combos)) := by
  induction combos with
  | nil => simp [find_available_domains_run, find_available_domains]
  | cons c cs ih =>
    obtain ⟨domain, base⟩ := c
    simp only [find_available_domains_run, h domain, ih, find_available_domains_cons,
      List.flatMap_cons]
    cases hc : check_domain w domain <;> simp [hc]

theorem notifyArgs_flatMap (combos : List (String × String)) :
    notifyArgs (combos.flatMap fun c => [AggEvent.notify c.1, AggEvent.probe c.1]) =
      combos.map Prod.fst := by
  induction combos with
  | nil => rfl
  | cons c cs ih =>
    have hstep : (c :: cs).flatMap (fun c => [AggEvent.notify c.1, AggEvent.probe c.1]) =
        AggEvent.notify c.1 :: AggEvent.probe c.1 ::
          cs.flatMap (fun c => [AggEvent.notify c.1, AggEvent.probe c.1]) := by
      simp [List.flatMap_cons]
    rw [hstep]
    simp only [notifyArgs, ih, List.map_cons]

/-- Claim C4, counterexample: The claim says the progress line emitted before a
candidate's probe is `"Checking: "` followed by the candidate's *base*
string.  On the code it is the *full domain*: `main` passes `print_status` as
the status callback, and `find_available_domains` invokes the callback with
`domain`, not `base`.  With base `"test"` and TLD `"com"` the emitted line is
`"Checking: test.com"`, not `"Checking: test"`. -/
theorem main_progress_lines_base_counterexample :
    main_progress_lines (fun _ => (Except.ok "record" : Except String String))
        ["test"] ["com"] = ["Checking: test.com"] ∧
    main_progress_lines (fun _ => (Except.ok "record" : Except String String))
        ["test"] ["com"] ≠ ["Checking: " ++ "test"] := by
  have hval : main_progress_lines
      (fun _ => (Except.ok "record" : Except String String)) ["test"] ["com"] =
      ["Checking: test.com"] := rfl
  refine ⟨hval, ?_⟩
  rw [hval]
  decide

/-- Claim C4, amended: For every candidate processed by the main pipeline, the
progress line emitted to standard output before that candidate's probe is
`"Checking: "` followed by the candidate's *full domain name* (not the base
string): `main` passes `print_status` as the status callback, which
`find_available_domains` invokes with the domain. -/
theorem main_progress_lines_spec {ε ρ : Type} (w : String → Except ε ρ)
    (B T : List String) :
    main_progress_lines w B T =
      (generate_domain_combinations B T).map fun c => "Checking: " ++ c.1 := by
  unfold main_progress_lines
  rw [congrArg Prod.fst
    (find_available_domains_run_ok (fun _ => Except.ok ()) w
      (generate_domain_combinations B T) (fun _ => rfl))]
  rw [notifyArgs_flatMap, List.map_map]
  rfl

/-- Claim C5: With a notification sink supplied that returns normally on every
domain (the faulting case is C6), `find_available_domains` processes the
candidates one at a time in input order, and for each candidate the sink is
invoked exactly once with the candidate's full domain name, strictly before
`check_domain` is probed on that domain: the event trace is exactly
`notify c₀, probe c₀, notify c₁, probe c₁, …`, and the loop returns the
collected available-domain list. -/
theorem find_available_domains_run_notify_spec {κ ε ρ : Type}
    (cb : String → Except κ Unit) (w : String → Except ε ρ)
    (combos : List (String × String)) (h : ∀ d, cb d = Except.ok ()) :
    find_available_domains_run (some cb) w combos =
      (combos.flatMap fun c => [AggEvent.notify c.1, AggEvent.probe c.1],
       Except.ok (find_available_domains w combos)) :=
  find_available_domains_run_ok cb w combos h

/-- Witness for C5: two candidates, a sink that never faults; the trace is
notify-then-probe for each candidate in input order. -/
theorem find_available_domains_run_notify_spec_witness :
    find_available_domains_run (some fun _ => (Except.ok () : Except Unit Unit))
        (fun _ => (Except.ok "record" : Except String String))
        [("test.com", "test"), ("example.org", "example")] =
      ([AggEvent.notify "test.com", AggEvent.probe "test.com",
        AggEvent.notify "example.org", AggEvent.probe "example.org"],
       Except.ok []) := by
  have h := find_available_domains_run_notify_spec
    (fun _ => (Except.ok () : Except Unit Unit))
    (fun _ => (Except.ok "record" : Except String String))
    [("test.com", "test"), ("example.org", "example")] (fun _ => rfl)
  exact h.trans rfl

/-- Claim C6: If the notification sink faults on the candidate `(d, b)` (after
returning normally on every earlier candidate), the fault propagates out of
`find_available_domains`: the outcome is that error (no partial result list),
the faulting candidate is never probed, and no later candidate is notified or
probed — the trace stops at `notify d`. -/
theorem find_available_domains_run_callback_fault {κ ε ρ : Type}
    (cb : String → Except κ Unit) (w : String → Except ε ρ)
    (pre post : List (String × String)) (d b : String) (e : κ)
    (hpre : ∀ c ∈ pre, cb c.1 = Except.ok ())
    (hd : cb d = Except.error e) :
    find_available_domains_run (some cb) w (pre ++ (d, b) :: post) =
      ((pre.flatMap fun c => [AggEvent.notify c.1, AggEvent.probe c.1]) ++
        [AggEvent.notify d],
       Except.error e) := by
  induction pre with
  | nil => simp [find_available_domains_run, hd]
  | cons c cs ih =>
    have hc : cb c.1 = Except.ok () := hpre c (List.mem_cons_self c cs)
    have ih' := ih fun c' hc' => hpre c' (List.mem_cons_of_mem c hc')
    obtain ⟨dc, bc⟩ := c
    rw [List.cons_append]
    simp only [find_available_domains_run, hc, ih', List.flatMap_cons]
    simp

/-- Witness for C6: the sink faults on the second candidate; the first is
notified and probed, the second only notified, the third untouched, and the
fault is the outcome. -/
theorem find_available_domains_run_callback_fault_witness :
    find_available_domains_run
        (some fun s => if s = "b.com" then (Except.error "boom" : Except String Unit)
                       else Except.ok ())
        (fun _ => (Except.ok "record" : Except String String))
        [("a.com", "a"), ("b.com", "b"), ("c.com", "c")] =
      ([AggEvent.notify "a.com", AggEvent.probe "a.com", AggEvent.notify "b.com"],
       Except.error "boom") := by
  have h := find_available_domains_run_callback_fault
    (fun s => if s = "b.com" then (Except.error "boom" : Except String Unit)
              else Except.ok ())
    (fun _ => (Except.ok "record" : Except String String))
    [("a.com", "a")] [("c.com", "c")] "b.com" "b" "boom"
    (by intro c hc
        rcases List.mem_singleton.mp hc with rfl
        rfl)
    rfl
  exact h.trans rfl

/-! ## Loader lemmas -/

theorem stripChars_eq_rdropWhile (l : List Char) :
    stripChars l = (l.dropWhile isPySpace).rdropWhile isPySpace := rfl

theorem stripChars_head_not (l : List Char) (c : Char) (t : List Char)
    (h : stripChars l = c :: t) : isPySpace c = false := by
  rw [stripChars_eq_rdropWhile] at h
  obtain ⟨s, hx⟩ := List.rdropWhile_prefix isPySpace (l.dropWhile isPySpace)
  rw [h] at hx
  have hne : l.dropWhile isPySpace ≠ [] := by rw [← hx]; simp
  have hnot := List.head_dropWhile_not isPySpace l hne
  have h1 : (l.dropWhile isPySpace).head? = some c := by rw [← hx]; rfl
  have h2 := List.head?_eq_head hne
  rw [h1] at h2
  injection h2 with h3
  rwa [← h3] at hnot

theorem stripChars_getLast_not (l : List Char) (c : Char)
    (h : (stripChars l).getLast? = some c) : isPySpace c = false := by
  rw [stripChars_eq_rdropWhile] at h
  have hne : (l.dropWhile isPySpace).rdropWhile isPySpace ≠ [] := by
    intro h0
    rw [h0] at h
    simp at h
  have hlast := List.rdropWhile_last_not isPySpace (l.dropWhile isPySpace) hne
  have h2 := List.getLast?_eq_getLast _ hne
  rw [h] at h2
  injection h2 with h3
  rw [← h3] at hlast
  simpa using hlast

theorem stripChars_eq_nil_of_all_space (l : List Char) (h : ∀ c ∈ l, isPySpace c) :
    stripChars l = [] := by
  have hd : l.dropWhile isPySpace = [] := List.dropWhile_eq_nil_iff.mpr h
  simp [stripChars, hd]

theorem load_strings_some_eq (lines : List String) :
    load_strings (some lines) =
      (lines.filter fun line => pyStrip line != "").map pyStrip := by
  induction lines with
  | nil => rfl
  | cons a as ih =>
    simp only [load_strings] at ih ⊢
    rw [List.filterMap_cons, List.filter_cons]
    by_cases h : pyStrip a = ""
    · simp [h, ih]
    · simp [h, ih]

/-- Claim C7: `load_config` returns the empty list both when the configuration
file is absent (the `FileNotFoundError` is caught) and when the file parses
successfully to a mapping without the `top_level_domains` key (`dict.get`
with default `[]`); neither case surfaces an error to the caller. -/
theorem load_config_missing_or_no_key {ε : Type}
    (safe_load : String → Except ε (List (String × List String))) :
    load_config none safe_load = Except.ok [] ∧
    (∀ (content : String) (config : List (String × List String)),
      safe_load content = Except.ok config →
      config.lookup "top_level_domains" = none →
      load_config (some content) safe_load = Except.ok []) := by
  refine ⟨rfl, ?_⟩
  intro content config hparse hkey
  simp [load_config, hparse, hkey]

/-- Witness for C7: a missing file and a parsed document with only an
unrelated key both yield the empty TLD list. -/
theorem load_config_missing_or_no_key_witness :
    load_config none
      (fun _ => (Except.ok [("other_key", ["x"])] :
        Except String (List (String × List String)))) = Except.ok [] ∧
    load_config (some "other_key: [x]")
      (fun _ => (Except.ok [("other_key", ["x"])] :
        Except String (List (String × List String)))) = Except.ok [] := by
  have h := load_config_missing_or_no_key
    (fun _ => (Except.ok [("other_key", ["x"])] :
      Except String (List (String × List String))))
  exact ⟨h.1, h.2 "other_key: [x]" [("other_key", ["x"])] rfl rfl⟩

/-- Claim C8: When the configuration file is present but `yaml.safe_load`
raises, `load_config` does not recover: only `FileNotFoundError` is caught,
so the parse fault propagates to the caller unchanged rather than yielding an
empty TLD list. -/
theorem load_config_parse_fault {ε : Type}
    (safe_load : String → Except ε (List (String × List String)))
    (content : String) (e : ε) (h : safe_load content = Except.error e) :
    load_config (some content) safe_load = Except.error e := by
  simp [load_config, h]

/-- Witness for C8: a parser that raises on the present document makes
`load_config` propagate that fault. -/
theorem load_config_parse_fault_witness :
    load_config (some "invalid: yaml: content:")
      (fun _ => (Except.error "yaml parse error" :
        Except String (List (String × List String)))) =
      Except.error "yaml parse error" :=
  load_config_parse_fault
    (fun _ => (Except.error "yaml parse error" :
      Except String (List (String × List String))))
    "invalid: yaml: content:" "yaml parse error" rfl

/-- Claim C9: `load_strings` returns one base string per non-blank line in file
order, skipping blank (whitespace-only) lines; an absent file yields the
empty list without raising, and consequently the candidate set and the final
result set of a run with a missing base-string file are empty with no fatal
error. -/
theorem load_strings_spec :
    load_strings none = [] ∧
    (∀ lines : List String, load_strings (some lines) =
      (lines.filter fun line => pyStrip line != "").map pyStrip) ∧
    (∀ tlds : List String,
      generate_domain_combinations (load_strings none) tlds = []) ∧
    (∀ (ε ρ : Type) (w : String → Except ε ρ) (tlds : List String),
      find_available_domains w
        (generate_domain_combinations (load_strings none) tlds) = []) := by
  refine ⟨rfl, load_strings_some_eq, ?_, ?_⟩
  · intro tlds
    rfl
  · intro ε ρ w tlds
    rfl

/-- Claim C10: Every base string retained by `load_strings` is stripped: it is
non-empty and carries no leading or trailing whitespace; stripping turns
`"  example  "` into `"example"`; and a whitespace-only line is skipped
exactly like an empty line. -/
theorem load_strings_strip_spec (lines : List String) :
    (∀ s ∈ load_strings (some lines), s ≠ "" ∧
      (∀ c, s.toList.head? = some c → isPySpace c = false) ∧
      (∀ c, s.toList.getLast? = some c → isPySpace c = false)) ∧
    pyStrip "  example  " = "example" ∧
    (∀ line : String, (∀ c ∈ line.toList, isPySpace c = true) →
      ∀ rest : List String,
        load_strings (some (line :: rest)) = load_strings (some rest)) := by
  refine ⟨?_, ?_, ?_⟩
  · intro s hs
    simp only [load_strings] at hs
    rcases List.mem_filterMap.mp hs with ⟨line, _hline, hf⟩
    by_cases h : pyStrip line = ""
    · rw [if_pos h] at hf
      cases hf
    · rw [if_neg h] at hf
      injection hf with hf
      subst hf
      refine ⟨h, ?_, ?_⟩
      · intro c hc
        cases hl : stripChars line.toList with
        | nil =>
          have : (pyStrip line).toList = [] := hl
          rw [this] at hc
          cases hc
        | cons a t =>
          have : (pyStrip line).toList = a :: t := hl
          rw [this] at hc
          injection hc with hc
          rw [hc] at hl
          exact stripChars_head_not line.toList c t hl
      · intro c hc
        exact stripChars_getLast_not line.toList c hc
  · rfl
  · intro line hall rest
    have hempty : pyStrip line = "" := by
      unfold pyStrip
      rw [stripChars_eq_nil_of_all_space line.toList hall]
    simp [load_strings, List.filterMap_cons, hempty]

/-- Witness for C10: `"  example  "` is retained as the stripped, non-blank
`"example"`, and a whitespace-only line is dropped like an empty one. -/
theorem load_strings_strip_spec_witness :
    "example" ∈ load_strings (some ["  example  "]) ∧
    "example" ≠ "" ∧
    load_strings (some ["   ", "a"]) = load_strings (some ["a"]) := by
  refine ⟨by decide, ?_, ?_⟩
  · exact ((load_strings_strip_spec ["  example  "]).1 "example" (by decide)).1
  · exact (load_strings_strip_spec []).2.2 "   " (by decide) ["a"]
